import Mathlib

/-!
Verification development for the Hallux citation-verification core.

The repository ships the core pipeline (extractor, layer runners, aggregator,
orchestrator) behind a FastAPI backend; the decision logic itself is described
in the specification.  Every definition below whose doc comment starts with
`Modelled from the spec:` embeds a component of that core from the
specification's words, because the backend module that implements it
(`app/services/verification_service.py` and friends) is not part of the
source snapshot (only its documentation, setup scripts and frontend are).
-/

namespace Hallux

/-- The four verification layers, in canonical order. -/
inductive LayerName where
  | url
  | metadata
  | content
  | ai
deriving DecidableEq, Repr

/-- Status of one layer's result for one candidate. -/
inductive Status where
  | passed
  | failed
  | inconclusive
  | unavailable
  | timed_out
deriving DecidableEq, Repr

/-- Final verdict label for one candidate. -/
inductive Label where
  | verified
  | suspicious
  | unverifiable
deriving DecidableEq, Repr

/-- Modelled from the spec: a CitationCandidate has an identifier, a raw text
span and optional parsed fields (author, year, title, URL, DOI). -/
structure CitationCandidate where
  id : Nat
  rawSpan : String
  author : Option String
  year : Option Int
  title : Option String
  url : Option String
  doi : Option String
deriving DecidableEq, Repr

/-- Modelled from the spec: a LayerResult carries the layer name, a status, a
numeric score in [0,1] that is absent when the status is
`unavailable`/`timed_out`, and free-text evidence. -/
structure LayerResult where
  layer : LayerName
  status : Status
  score : Option ℚ
  evidence : String
deriving DecidableEq, Repr

/-- Modelled from the spec: the deployment-tunable aggregation constants —
one fixed relative weight per layer and the two label thresholds.  The spec
leaves the exact values open (design notes §9) but constrains them by
`ValidConfig` below. -/
structure AggregationConfig where
  wUrl : ℚ
  wMetadata : ℚ
  wContent : ℚ
  wAi : ℚ
  low : ℚ
  high : ℚ
deriving DecidableEq, Repr

/-- The fixed weight of a layer under a configuration. -/
def AggregationConfig.weight (cfg : AggregationConfig) : LayerName → ℚ
  | .url => cfg.wUrl
  | .metadata => cfg.wMetadata
  | .content => cfg.wContent
  | .ai => cfg.wAi

/-- The spec's constraints on a deployment configuration: weights are
positive, the AI layer's weight is at least each technical layer's weight,
and the two thresholds cut [0,1] into three contiguous non-empty ranges. -/
def ValidConfig (cfg : AggregationConfig) : Prop :=
  0 < cfg.wUrl ∧ 0 < cfg.wMetadata ∧ 0 < cfg.wContent ∧ 0 < cfg.wAi ∧
  cfg.wUrl ≤ cfg.wAi ∧ cfg.wMetadata ≤ cfg.wAi ∧ cfg.wContent ≤ cfg.wAi ∧
  0 ≤ cfg.low ∧ cfg.low < cfg.high ∧ cfg.high ≤ 1

instance : DecidablePred ValidConfig := fun cfg => by
  unfold ValidConfig; infer_instance

/-- A concrete deployment configuration satisfying the spec's constraints,
used for concrete evaluations. -/
def defaultConfig : AggregationConfig :=
  { wUrl := 1, wMetadata := 1, wContent := 1, wAi := 2,
    low := Rat.divInt 2 5, high := Rat.divInt 7 10 }

/-- The (weight, score) pairs of the layers that produced a score. -/
def weightedEntries (cfg : AggregationConfig) (rs : List LayerResult) :
    List (ℚ × ℚ) :=
  rs.filterMap fun r => r.score.map fun s => (cfg.weight r.layer, s)

/-- Modelled from the spec: the Aggregator's score policy — a weighted mean
over present layer scores only; absent layers contribute nothing (their
weights are thereby redistributed proportionally among the present layers);
when no layer produced a score the aggregate is undefined (`none`), never
coerced to 0. -/
def aggregate (cfg : AggregationConfig) (rs : List LayerResult) : Option ℚ :=
  if weightedEntries cfg rs = [] then none
  else some (((weightedEntries cfg rs).map fun p => p.1 * p.2).sum /
             ((weightedEntries cfg rs).map Prod.fst).sum)

/-- Modelled from the spec: the labelling rule — score ≥ high-threshold gives
`verified`, score ≤ low-threshold gives `suspicious`, strictly between gives
`unverifiable`. -/
def labelOf (cfg : AggregationConfig) (s : ℚ) : Label :=
  if cfg.high ≤ s then .verified
  else if s ≤ cfg.low then .suspicious
  else .unverifiable

/-- Display text of a label. -/
def Label.text : Label → String
  | .verified => "verified"
  | .suspicious => "suspicious"
  | .unverifiable => "unverifiable"

/-- Modelled from the spec: the explanation text concatenates the evidence
strings of all present layers under a "label: reasoning" framing. -/
def explanation (lab : Label) (rs : List LayerResult) : String :=
  lab.text ++ ": " ++
    String.intercalate "; "
      (rs.filterMap fun r => if r.score.isSome then some r.evidence else none)

/-- Modelled from the spec: a VerificationVerdict — candidate reference, the
ordered LayerResults, the aggregate confidence score (absent when undefined),
the final label and a human-readable explanation. -/
structure VerificationVerdict where
  candidate : Nat
  results : List LayerResult
  score : Option ℚ
  label : Label
  explanation : String
deriving DecidableEq, Repr

/-- Modelled from the spec: the Aggregator — computes the aggregate score of
one candidate's LayerResults; when it is undefined the label is forced to
`unverifiable`, otherwise the thresholds decide the label. -/
def mkVerdict (cfg : AggregationConfig) (cand : Nat) (rs : List LayerResult) :
    VerificationVerdict :=
  match aggregate cfg rs with
  | none => ⟨cand, rs, none, .unverifiable, explanation .unverifiable rs⟩
  | some m => ⟨cand, rs, some m, labelOf cfg m, explanation (labelOf cfg m) rs⟩

/-- Text formats recognized by the extractor. -/
inductive TextFormat where
  | plain
  | markdown
deriving DecidableEq, Repr

/-- Modelled from the spec: the option flags of `verify_text` — each flag
gates exactly one layer (or the extractor's parsing mode). -/
structure VerifyOptions where
  enable_ai_scoring : Bool
  check_content : Bool
  fmt : TextFormat
deriving DecidableEq, Repr

/-- The canonical layer order (url, metadata, content, ai) in which every
candidate's LayerResults are assembled. -/
def canonicalOrder : List LayerName := [.url, .metadata, .content, .ai]

/-- Which layers a given option set enables: `enable_ai_scoring` gates the
ai layer, `check_content` gates the content layer; url and metadata are
always enabled. -/
def layerEnabled (o : VerifyOptions) : LayerName → Bool
  | .ai => o.enable_ai_scoring
  | .content => o.check_content
  | _ => true

/-- The LayerResult recorded for a layer that was disabled via options:
status `unavailable`, no score. -/
def disabledResult (L : LayerName) : LayerResult :=
  ⟨L, .unavailable, none, "layer disabled by options"⟩

/-- Modelled from the spec: the per-(candidate, layer) dispatch of the
orchestrator — a disabled layer yields `disabledResult`, an enabled layer
runs its layer runner (abstracted as a function, since every per-layer
failure is caught and recorded as a LayerResult, never an exception). -/
def resultFor (o : VerifyOptions)
    (runLayer : CitationCandidate → LayerName → LayerResult)
    (c : CitationCandidate) (L : LayerName) : LayerResult :=
  if layerEnabled o L then runLayer c L else disabledResult L

/-- All four LayerResults of one candidate, assembled in canonical order. -/
def candidateResults (o : VerifyOptions)
    (runLayer : CitationCandidate → LayerName → LayerResult)
    (c : CitationCandidate) : List LayerResult :=
  canonicalOrder.map (resultFor o runLayer c)

/-- Modelled from the spec: a VerificationRun — the whole-document container
with the candidates, their verdicts, the overall document confidence and the
enabled layers. -/
structure VerificationRun where
  candidates : List CitationCandidate
  verdicts : List VerificationVerdict
  overall : Option ℚ
  enabledLayers : List LayerName
deriving DecidableEq, Repr

/-- Overall document confidence: mean of the verdict scores that exist,
absent when none exists. -/
def overallScore (vs : List VerificationVerdict) : Option ℚ :=
  if (vs.filterMap (fun v => v.score)) = [] then none
  else some ((vs.filterMap (fun v => v.score)).sum /
             ((vs.filterMap (fun v => v.score)).length : ℚ))

/-- Modelled from the spec: `verify_text` past extraction — one verdict per
extracted candidate, each aggregated from that candidate's four LayerResults
in canonical order. -/
def verify_text (cfg : AggregationConfig) (o : VerifyOptions)
    (cands : List CitationCandidate)
    (runLayer : CitationCandidate → LayerName → LayerResult) :
    VerificationRun :=
  let verdicts := cands.map fun c => mkVerdict cfg c.id (candidateResults o runLayer c)
  ⟨cands, verdicts, overallScore verdicts, canonicalOrder.filter (fun L => layerEnabled o L)⟩

/-- The states of the orchestrator's per-request state machine. -/
inductive PState where
  | received
  | extracting
  | running_layers
  | aggregating
  | complete
  | failed
deriving DecidableEq, Repr

/-- The outcome of one verification request. -/
inductive Outcome where
  | complete (run : VerificationRun)
  | failed (err : String)
deriving DecidableEq, Repr

/-- Modelled from the spec: the Pipeline Orchestrator — extraction is the
only step whose failure reaches the `failed` terminal state; when extraction
succeeds the request always completes with a VerificationRun, whatever the
layer runners returned. -/
def runPipeline (cfg : AggregationConfig) (o : VerifyOptions)
    (extract : Except String (List CitationCandidate))
    (runLayer : CitationCandidate → LayerName → LayerResult) : Outcome :=
  match extract with
  | .error e => .failed e
  | .ok cs => .complete (verify_text cfg o cs runLayer)

/-- The terminal state of the orchestrator's state machine for a request:
`failed` exactly when extraction raised, `complete` otherwise. -/
def finalState (extract : Except String (List CitationCandidate)) : PState :=
  match extract with
  | .error _ => .failed
  | .ok _ => .complete

/-- The sequence of states a request passes through. -/
def stateTrace (extract : Except String (List CitationCandidate)) :
    List PState :=
  match extract with
  | .error _ => [.received, .extracting, .failed]
  | .ok _ => [.received, .extracting, .running_layers, .aggregating, .complete]

/-- Modelled from the spec: the AI Plausibility layer's judge fallback chain —
the primary judge backend is tried first; when it errors, times out or is
unconfigured (response `none`), the layer retries exactly once against the
fallback backend; a responding judge yields status `passed` with its score;
when both are unavailable the status is `unavailable` with no score. -/
def runAILayer (primary fallback : Option (ℚ × String)) : LayerResult :=
  match primary with
  | some (s, r) => ⟨.ai, .passed, some s, r⟩
  | none =>
    match fallback with
    | some (s, r) => ⟨.ai, .passed, some s, r⟩
    | none => ⟨.ai, .unavailable, none, "both judge backends unavailable"⟩

/-- Modelled from the spec: the shipped backend's `_verify_metadata` is an
unimplemented placeholder (the docs list Crossref lookup under "Next Steps");
it reports the same demo output for every citation and never performs a real
check. -/
def verify_metadata (_c : CitationCandidate) : LayerResult :=
  ⟨.metadata, .unavailable, none, "metadata lookup not implemented (demo placeholder)"⟩

/-- Modelled from the spec: the shipped backend's `_verify_content` is an
unimplemented placeholder (the docs list Playwright scraping under "Next
Steps"); it reports the same demo output for every citation and never
performs a real check. -/
def verify_content (_c : CitationCandidate) : LayerResult :=
  ⟨.content, .unavailable, none, "content alignment not implemented (demo placeholder)"⟩

/-- Which layer runners of the shipped backend perform a real check: URL
reachability and AI plausibility do; metadata lookup and content alignment
do not (they are the placeholders above). -/
def layerImplemented : LayerName → Bool
  | .url => true
  | .ai => true
  | .metadata => false
  | .content => false

/-- The scores of the layers that produced one. -/
def presentScores (rs : List LayerResult) : List ℚ :=
  rs.filterMap fun r => r.score

/-- The rank of a label: `suspicious` < `unverifiable` < `verified`. -/
def Label.rank : Label → Nat
  | .suspicious => 0
  | .unverifiable => 1
  | .verified => 2

/-- A concrete candidate used for concrete evaluations. -/
def demoCandidate : CitationCandidate :=
  ⟨0, "Smith et al. (2023)", some "Smith", some 2023, none,
    some "https://example.org/paper", none⟩

/-- A concrete layer runner in which every external capability is down:
each layer reports `unavailable` with no score. -/
def demoRunLayer (_c : CitationCandidate) (L : LayerName) : LayerResult :=
  ⟨L, .unavailable, none, "layer offline"⟩

/-- The LayerResults of the C9 scenario: url `failed` with present score 0,
every other layer `unavailable`. -/
def failedUrlOnlyResults : List LayerResult :=
  [⟨.url, .failed, some 0, "connection refused"⟩,
   ⟨.metadata, .unavailable, none, "no DOI"⟩,
   ⟨.content, .unavailable, none, "content not fetchable"⟩,
   ⟨.ai, .unavailable, none, "both judge backends down"⟩]

lemma weight_pos {cfg : AggregationConfig} (hv : ValidConfig cfg)
    (L : LayerName) : 0 < cfg.weight L := by
  obtain ⟨h1, h2, h3, h4, -⟩ := hv
  cases L <;> assumption

lemma weightedEntries_mem {cfg : AggregationConfig} {rs : List LayerResult}
    {p : ℚ × ℚ} (hp : p ∈ weightedEntries cfg rs) :
    ∃ r ∈ rs, r.score = some p.2 ∧ p.1 = cfg.weight r.layer := by
  simp only [weightedEntries, List.mem_filterMap] at hp
  obtain ⟨r, hr, hf⟩ := hp
  cases h : r.score with
  | none => rw [h] at hf; simp at hf
  | some s =>
    rw [h] at hf
    simp only [Option.map_some', Option.some.injEq] at hf
    refine ⟨r, hr, ?_, ?_⟩
    · rw [h, ← hf]
    · rw [← hf]

lemma weightedEntries_ne_nil {cfg : AggregationConfig} {rs : List LayerResult}
    {r : LayerResult} (hr : r ∈ rs) (hs : r.score.isSome) :
    weightedEntries cfg rs ≠ [] := by
  cases h : r.score with
  | none => rw [h] at hs; simp at hs
  | some s =>
    intro hnil
    have hmem : (cfg.weight r.layer, s) ∈ weightedEntries cfg rs := by
      simp only [weightedEntries, List.mem_filterMap]
      exact ⟨r, hr, by rw [h]; rfl⟩
    rw [hnil] at hmem
    simp at hmem

lemma presentScores_of_entry {cfg : AggregationConfig} {rs : List LayerResult}
    {p : ℚ × ℚ} (hp : p ∈ weightedEntries cfg rs) : p.2 ∈ presentScores rs := by
  obtain ⟨r, hr, hsc, -⟩ := weightedEntries_mem hp
  simp only [presentScores, List.mem_filterMap]
  exact ⟨r, hr, hsc⟩

lemma sum_fst_nonneg (l : List (ℚ × ℚ)) (hw : ∀ p ∈ l, 0 < p.1) :
    0 ≤ (l.map Prod.fst).sum := by
  induction l with
  | nil => simp
  | cons a t ih =>
    have h1 := hw a (by simp)
    have h2 := ih fun p hp => hw p (by simp [hp])
    simp only [List.map_cons, List.sum_cons]
    linarith

lemma sum_fst_pos (l : List (ℚ × ℚ)) (hl : l ≠ []) (hw : ∀ p ∈ l, 0 < p.1) :
    0 < (l.map Prod.fst).sum := by
  cases l with
  | nil => exact absurd rfl hl
  | cons a t =>
    have h1 := hw a (by simp)
    have h2 := sum_fst_nonneg t fun p hp => hw p (by simp [hp])
    simp only [List.map_cons, List.sum_cons]
    linarith

lemma weighted_sum_le (l : List (ℚ × ℚ)) (hi : ℚ) (hw : ∀ p ∈ l, 0 < p.1)
    (hs : ∀ p ∈ l, p.2 ≤ hi) :
    (l.map fun p => p.1 * p.2).sum ≤ hi * (l.map Prod.fst).sum := by
  induction l with
  | nil => simp
  | cons a t ih =>
    have h1 := hw a (by simp)
    have h2 := hs a (by simp)
    have h3 := ih (fun p hp => hw p (by simp [hp])) fun p hp => hs p (by simp [hp])
    simp only [List.map_cons, List.sum_cons]
    rw [mul_add]
    have h4 : a.1 * a.2 ≤ hi * a.1 := by nlinarith
    linarith

lemma le_weighted_sum (l : List (ℚ × ℚ)) (lo : ℚ) (hw : ∀ p ∈ l, 0 < p.1)
    (hs : ∀ p ∈ l, lo ≤ p.2) :
    lo * (l.map Prod.fst).sum ≤ (l.map fun p => p.1 * p.2).sum := by
  induction l with
  | nil => simp
  | cons a t ih =>
    have h1 := hw a (by simp)
    have h2 := hs a (by simp)
    have h3 := ih (fun p hp => hw p (by simp [hp])) fun p hp => hs p (by simp [hp])
    simp only [List.map_cons, List.sum_cons]
    rw [mul_add]
    have h4 : lo * a.1 ≤ a.1 * a.2 := by nlinarith
    linarith

lemma sum_map_div (l : List ℚ) (w : ℚ) :
    (l.map fun x => x / w).sum = l.sum / w := by
  induction l with
  | nil => simp
  | cons a t ih =>
    simp only [List.map_cons, List.sum_cons, ih, add_div]

lemma aggregate_eq_none_iff (cfg : AggregationConfig) (rs : List LayerResult) :
    aggregate cfg rs = none ↔ weightedEntries cfg rs = [] := by
  by_cases h : weightedEntries cfg rs = [] <;> simp [aggregate, h]

lemma weightedEntries_nil_of_no_scores {cfg : AggregationConfig}
    {rs : List LayerResult} (h : ∀ r ∈ rs, r.score = none) :
    weightedEntries cfg rs = [] := by
  simp only [weightedEntries, List.filterMap_eq_nil_iff]
  intro r hr
  rw [h r hr]
  rfl

lemma mkVerdict_of_agg_none {cfg : AggregationConfig} {cand : Nat}
    {rs : List LayerResult} (h : aggregate cfg rs = none) :
    mkVerdict cfg cand rs =
      ⟨cand, rs, none, .unverifiable, explanation .unverifiable rs⟩ := by
  simp [mkVerdict, h]

lemma mkVerdict_of_agg_some {cfg : AggregationConfig} {cand : Nat}
    {rs : List LayerResult} {m : ℚ} (h : aggregate cfg rs = some m) :
    mkVerdict cfg cand rs =
      ⟨cand, rs, some m, labelOf cfg m, explanation (labelOf cfg m) rs⟩ := by
  simp [mkVerdict, h]

lemma mkVerdict_label_of_no_scores {cfg : AggregationConfig} {cand : Nat}
    {rs : List LayerResult} (h : ∀ r ∈ rs, r.score = none) :
    (mkVerdict cfg cand rs).label = .unverifiable ∧
    (mkVerdict cfg cand rs).score = none := by
  have hagg : aggregate cfg rs = none :=
    (aggregate_eq_none_iff cfg rs).mpr (weightedEntries_nil_of_no_scores h)
  rw [mkVerdict_of_agg_none hagg]
  exact ⟨rfl, rfl⟩

/-- C2: when no layer produced a score (every status `unavailable` or
`timed_out`, which per the data model means every score is absent), the
aggregate score is undefined — `none`, not coerced to 0 — and the verdict
label is forced to `unverifiable`. -/
theorem all_layers_absent_unverifiable (cfg : AggregationConfig) (cand : Nat)
    (rs : List LayerResult)
    (hstat : ∀ r ∈ rs, r.status = .unavailable ∨ r.status = .timed_out)
    (hwf : ∀ r ∈ rs, (r.status = .unavailable ∨ r.status = .timed_out) →
      r.score = none) :
    aggregate cfg rs = none ∧
    (mkVerdict cfg cand rs).score = none ∧
    (mkVerdict cfg cand rs).label = .unverifiable := by
  have hnone : ∀ r ∈ rs, r.score = none := fun r hr => hwf r hr (hstat r hr)
  have hagg : aggregate cfg rs = none :=
    (aggregate_eq_none_iff cfg rs).mpr (weightedEntries_nil_of_no_scores hnone)
  obtain ⟨hl, hs⟩ := @mkVerdict_label_of_no_scores cfg cand rs hnone
  exact ⟨hagg, hs, hl⟩

/-- Witness for C2 at a concrete all-absent LayerResult set. -/
theorem all_layers_absent_unverifiable_witness :
    aggregate defaultConfig
        [⟨.url, .unavailable, none, "no URL on candidate"⟩,
         ⟨.metadata, .unavailable, none, "no DOI"⟩,
         ⟨.content, .timed_out, none, "fetch timed out"⟩,
         ⟨.ai, .timed_out, none, "judges timed out"⟩] = none ∧
    (mkVerdict defaultConfig 0
        [⟨.url, .unavailable, none, "no URL on candidate"⟩,
         ⟨.metadata, .unavailable, none, "no DOI"⟩,
         ⟨.content, .timed_out, none, "fetch timed out"⟩,
         ⟨.ai, .timed_out, none, "judges timed out"⟩]).score = none ∧
    (mkVerdict defaultConfig 0
        [⟨.url, .unavailable, none, "no URL on candidate"⟩,
         ⟨.metadata, .unavailable, none, "no DOI"⟩,
         ⟨.content, .timed_out, none, "fetch timed out"⟩,
         ⟨.ai, .timed_out, none, "judges timed out"⟩]).label = .unverifiable :=
  all_layers_absent_unverifiable defaultConfig 0 _ (by decide) (by decide)

/-- C3: for a valid configuration and any score in [0,1], exactly one of the
three threshold conditions holds and the labelling rule assigns the matching
label — score ≥ high gives `verified`, score ≤ low gives `suspicious`,
strictly between gives `unverifiable` — so the two thresholds partition
[0,1] into three contiguous non-overlapping ranges with no gaps. -/
theorem label_partition (cfg : AggregationConfig) (s : ℚ)
    (hv : ValidConfig cfg) (_h0 : 0 ≤ s) (_h1 : s ≤ 1) :
    (cfg.high ≤ s ∧ ¬s ≤ cfg.low ∧ ¬(cfg.low < s ∧ s < cfg.high) ∧
      labelOf cfg s = .verified) ∨
    (¬cfg.high ≤ s ∧ s ≤ cfg.low ∧ ¬(cfg.low < s ∧ s < cfg.high) ∧
      labelOf cfg s = .suspicious) ∨
    (¬cfg.high ≤ s ∧ ¬s ≤ cfg.low ∧ (cfg.low < s ∧ s < cfg.high) ∧
      labelOf cfg s = .unverifiable) := by
  obtain ⟨-, -, -, -, -, -, -, -, hlh, -⟩ := hv
  unfold labelOf
  rcases le_or_lt cfg.high s with hh | hh
  · left
    rw [if_pos hh]
    exact ⟨hh, by linarith, fun hc => by linarith [hc.2], rfl⟩
  · rcases le_or_lt s cfg.low with hl | hl
    · right; left
      rw [if_neg (by linarith), if_pos hl]
      exact ⟨by linarith, hl, fun hc => by linarith [hc.1], rfl⟩
    · right; right
      rw [if_neg (by linarith), if_neg (by linarith)]
      exact ⟨by linarith, by linarith, ⟨hl, hh⟩, rfl⟩

/-- Witness for C3 at the concrete score 1/2 under the default deployment
configuration. -/
theorem label_partition_witness :
    (defaultConfig.high ≤ Rat.divInt 1 2 ∧ ¬Rat.divInt 1 2 ≤ defaultConfig.low ∧
      ¬(defaultConfig.low < Rat.divInt 1 2 ∧ Rat.divInt 1 2 < defaultConfig.high) ∧
      labelOf defaultConfig (Rat.divInt 1 2) = .verified) ∨
    (¬defaultConfig.high ≤ Rat.divInt 1 2 ∧ Rat.divInt 1 2 ≤ defaultConfig.low ∧
      ¬(defaultConfig.low < Rat.divInt 1 2 ∧ Rat.divInt 1 2 < defaultConfig.high) ∧
      labelOf defaultConfig (Rat.divInt 1 2) = .suspicious) ∨
    (¬defaultConfig.high ≤ Rat.divInt 1 2 ∧ ¬Rat.divInt 1 2 ≤ defaultConfig.low ∧
      (defaultConfig.low < Rat.divInt 1 2 ∧ Rat.divInt 1 2 < defaultConfig.high) ∧
      labelOf defaultConfig (Rat.divInt 1 2) = .unverifiable) :=
  label_partition defaultConfig (Rat.divInt 1 2) (by decide) (by decide) (by decide)

/-- C7: the Aggregator is deterministic — on equal LayerResult sets (same
statuses, scores and evidence strings) it produces structurally identical
VerificationVerdicts, and in particular identical explanation texts. -/
theorem aggregator_deterministic (cfg : AggregationConfig) (cand : Nat)
    (rs rs' : List LayerResult) (h : rs = rs') :
    mkVerdict cfg cand rs = mkVerdict cfg cand rs' ∧
    (mkVerdict cfg cand rs).explanation = (mkVerdict cfg cand rs').explanation ∧
    (mkVerdict cfg cand rs).score = (mkVerdict cfg cand rs').score := by
  subst h
  exact ⟨rfl, rfl, rfl⟩

/-- Witness for C7 at a concrete LayerResult set. -/
theorem aggregator_deterministic_witness :
    mkVerdict defaultConfig 1 [⟨.url, .passed, some 1, "reachable"⟩] =
      mkVerdict defaultConfig 1 [⟨.url, .passed, some 1, "reachable"⟩] ∧
    (mkVerdict defaultConfig 1 [⟨.url, .passed, some 1, "reachable"⟩]).explanation =
      (mkVerdict defaultConfig 1 [⟨.url, .passed, some 1, "reachable"⟩]).explanation ∧
    (mkVerdict defaultConfig 1 [⟨.url, .passed, some 1, "reachable"⟩]).score =
      (mkVerdict defaultConfig 1 [⟨.url, .passed, some 1, "reachable"⟩]).score :=
  aggregator_deterministic defaultConfig 1 _ _ rfl

/-- C8: the labelling rule is monotone in the aggregate score — for s1 ≤ s2
the label of s2 is never worse than the label of s1 under the ordering
`suspicious` < `unverifiable` < `verified`. -/
theorem label_monotone (cfg : AggregationConfig) (s1 s2 : ℚ) (h : s1 ≤ s2) :
    (labelOf cfg s1).rank ≤ (labelOf cfg s2).rank := by
  unfold labelOf
  split_ifs <;> simp only [Label.rank] <;> first | omega | linarith

/-- Witness for C8 at the concrete pair 0 ≤ 1. -/
theorem label_monotone_witness :
    (labelOf defaultConfig 0).rank ≤ (labelOf defaultConfig 1).rank :=
  label_monotone defaultConfig 0 1 (by decide)

/-- C1: for any LayerResult set with at least one present score, under a
valid configuration the aggregate score exists and equals the weighted mean
over the present layer scores only: each present layer's redistributed
weight is its fixed weight divided by the present layers' weight total, the
redistributed weights sum to 1, and the mean lies within every interval
[lo, hi] that contains all present scores — in particular within
[minimum present score, maximum present score]. -/
theorem aggregate_weighted_mean_bounds (cfg : AggregationConfig)
    (rs : List LayerResult) (lo hi : ℚ) (hv : ValidConfig cfg)
    (hpresent : ∃ r ∈ rs, r.score.isSome)
    (hbound : ∀ s ∈ presentScores rs, lo ≤ s ∧ s ≤ hi) :
    ∃ m, aggregate cfg rs = some m ∧
      ((weightedEntries cfg rs).map
        (fun p => p.1 / ((weightedEntries cfg rs).map Prod.fst).sum)).sum = 1 ∧
      m = ((weightedEntries cfg rs).map
        (fun p => p.1 / ((weightedEntries cfg rs).map Prod.fst).sum * p.2)).sum ∧
      lo ≤ m ∧ m ≤ hi := by
  obtain ⟨r, hr, hrs⟩ := hpresent
  have hne : weightedEntries cfg rs ≠ [] := weightedEntries_ne_nil hr hrs
  have hw : ∀ p ∈ weightedEntries cfg rs, 0 < p.1 := by
    intro p hp
    obtain ⟨r', -, -, hwp⟩ := weightedEntries_mem hp
    rw [hwp]
    exact weight_pos hv r'.layer
  have hW : 0 < ((weightedEntries cfg rs).map Prod.fst).sum :=
    sum_fst_pos _ hne hw
  have hslo : ∀ p ∈ weightedEntries cfg rs, lo ≤ p.2 := fun p hp =>
    (hbound p.2 (presentScores_of_entry hp)).1
  have hshi : ∀ p ∈ weightedEntries cfg rs, p.2 ≤ hi := fun p hp =>
    (hbound p.2 (presentScores_of_entry hp)).2
  refine ⟨((weightedEntries cfg rs).map fun p => p.1 * p.2).sum /
      ((weightedEntries cfg rs).map Prod.fst).sum, ?_, ?_, ?_, ?_, ?_⟩
  · simp [aggregate, hne]
  · have hcomp : ((weightedEntries cfg rs).map
        fun p => p.1 / ((weightedEntries cfg rs).map Prod.fst).sum) =
        (((weightedEntries cfg rs).map Prod.fst).map
          fun x => x / ((weightedEntries cfg rs).map Prod.fst).sum) := by
      rw [List.map_map]
      rfl
    rw [hcomp, sum_map_div, div_self (ne_of_gt hW)]
  · have hcomp : ((weightedEntries cfg rs).map
        fun p => p.1 / ((weightedEntries cfg rs).map Prod.fst).sum * p.2) =
        ((weightedEntries cfg rs).map
          fun p => p.1 * p.2 / ((weightedEntries cfg rs).map Prod.fst).sum) := by
      simp only [div_mul_eq_mul_div]
    have hcomp2 : ((weightedEntries cfg rs).map
        fun p => p.1 * p.2 / ((weightedEntries cfg rs).map Prod.fst).sum) =
        (((weightedEntries cfg rs).map fun p => p.1 * p.2).map
          fun x => x / ((weightedEntries cfg rs).map Prod.fst).sum) := by
      rw [List.map_map]
      rfl
    rw [hcomp, hcomp2, sum_map_div]
  · rw [le_div_iff₀ hW]
    exact le_weighted_sum _ lo hw hslo
  · rw [div_le_iff₀ hW]
    exact weighted_sum_le _ hi hw hshi

/-- Witness for C1 at a concrete two-layer result set with scores 1/2 and 1. -/
theorem aggregate_weighted_mean_bounds_witness :
    ∃ m, aggregate defaultConfig
        [⟨.url, .passed, some (Rat.divInt 1 2), "reachable"⟩,
         ⟨.ai, .passed, some 1, "plausible"⟩] = some m ∧
      ((weightedEntries defaultConfig
          [⟨.url, .passed, some (Rat.divInt 1 2), "reachable"⟩,
           ⟨.ai, .passed, some 1, "plausible"⟩]).map
        (fun p => p.1 / ((weightedEntries defaultConfig
          [⟨.url, .passed, some (Rat.divInt 1 2), "reachable"⟩,
           ⟨.ai, .passed, some 1, "plausible"⟩]).map Prod.fst).sum)).sum = 1 ∧
      m = ((weightedEntries defaultConfig
          [⟨.url, .passed, some (Rat.divInt 1 2), "reachable"⟩,
           ⟨.ai, .passed, some 1, "plausible"⟩]).map
        (fun p => p.1 / ((weightedEntries defaultConfig
          [⟨.url, .passed, some (Rat.divInt 1 2), "reachable"⟩,
           ⟨.ai, .passed, some 1, "plausible"⟩]).map Prod.fst).sum * p.2)).sum ∧
      Rat.divInt 1 2 ≤ m ∧ m ≤ 1 :=
  aggregate_weighted_mean_bounds defaultConfig
    [⟨.url, .passed, some (Rat.divInt 1 2), "reachable"⟩,
     ⟨.ai, .passed, some 1, "plausible"⟩]
    (Rat.divInt 1 2) 1 (by decide) (by decide) (by decide)

lemma weightedEntries_cons_none {cfg : AggregationConfig} {x : LayerResult}
    {rs : List LayerResult} (h : x.score = none) :
    weightedEntries cfg (x :: rs) = weightedEntries cfg rs := by
  simp [weightedEntries, List.filterMap_cons, h]

/-- C4: the AI Plausibility layer's judge fallback chain — when the primary
backend errors, times out or is unconfigured (`none`), the layer retries
once against the fallback; a responding fallback yields a LayerResult with
status `passed` carrying the fallback's score; the status is `unavailable`
only when both backends are unavailable, and then aggregation treats the
layer as missing data (dropping its result leaves the aggregate unchanged),
never as a score of zero. -/
theorem ai_fallback_chain (primary fallback : Option (ℚ × String)) (s : ℚ)
    (r : String) (cfg : AggregationConfig) (rs : List LayerResult) :
    (primary = none → fallback = some (s, r) →
      runAILayer primary fallback = ⟨.ai, .passed, some s, r⟩) ∧
    ((runAILayer primary fallback).status = .unavailable →
      primary = none ∧ fallback = none) ∧
    (primary = none → fallback = none →
      (runAILayer primary fallback).status = .unavailable ∧
      (runAILayer primary fallback).score = none ∧
      aggregate cfg (runAILayer primary fallback :: rs) = aggregate cfg rs) := by
  refine ⟨?_, ?_, ?_⟩
  · rintro rfl rfl
    rfl
  · intro hst
    cases primary with
    | some p =>
      obtain ⟨ps, pr⟩ := p
      simp [runAILayer] at hst
    | none =>
      cases fallback with
      | some p =>
        obtain ⟨ps, pr⟩ := p
        simp [runAILayer] at hst
      | none => exact ⟨rfl, rfl⟩
  · rintro rfl rfl
    refine ⟨rfl, rfl, ?_⟩
    have hwe : weightedEntries cfg (runAILayer none none :: rs) =
        weightedEntries cfg rs := weightedEntries_cons_none rfl
    simp [aggregate, hwe]

/-- Witness for C4: primary down, fallback responds with score 1/5 — the
LayerResult is `passed` with the fallback's score; and with both backends
down the result is `unavailable` and drops out of aggregation. -/
theorem ai_fallback_chain_witness :
    runAILayer none (some (Rat.divInt 1 5, "fallback reasoning")) =
      ⟨.ai, .passed, some (Rat.divInt 1 5), "fallback reasoning"⟩ ∧
    (runAILayer none none).status = .unavailable ∧
    aggregate defaultConfig (runAILayer none none ::
        [⟨.url, .passed, some 1, "reachable"⟩]) =
      aggregate defaultConfig [⟨.url, .passed, some 1, "reachable"⟩] :=
  ⟨(ai_fallback_chain none (some (Rat.divInt 1 5, "fallback reasoning"))
      (Rat.divInt 1 5) "fallback reasoning" defaultConfig []).1 rfl rfl,
   ((ai_fallback_chain none none 0 "" defaultConfig
      [⟨.url, .passed, some 1, "reachable"⟩]).2.2 rfl rfl).1,
   ((ai_fallback_chain none none 0 "" defaultConfig
      [⟨.url, .passed, some 1, "reachable"⟩]).2.2 rfl rfl).2.2⟩

/-- C5: the orchestrator reaches the terminal state `failed` only when
extraction itself raises; whatever the layer runners return for any
candidate — any statuses, failures, timeouts — a request whose extraction
succeeded terminates `complete` with a VerificationRun, and when every layer
result carries no score every verdict of that run is `unverifiable`. -/
theorem pipeline_failed_only_on_extraction (cfg : AggregationConfig)
    (o : VerifyOptions) (extract : Except String (List CitationCandidate))
    (runLayer : CitationCandidate → LayerName → LayerResult) :
    (∀ e, runPipeline cfg o extract runLayer = .failed e ↔ extract = .error e) ∧
    (finalState extract = .failed ↔ ∃ e, extract = .error e) ∧
    (∀ cs, extract = .ok cs →
      runPipeline cfg o extract runLayer =
        .complete (verify_text cfg o cs runLayer)) ∧
    ((∀ c L, (runLayer c L).score = none) → ∀ cs, extract = .ok cs →
      ∀ v ∈ (verify_text cfg o cs runLayer).verdicts,
        v.label = .unverifiable) := by
  refine ⟨?_, ?_, ?_, ?_⟩
  · intro e
    cases extract with
    | error e' => simp [runPipeline]
    | ok cs => simp [runPipeline]
  · cases extract with
    | error e' => simp [finalState]
    | ok cs => simp [finalState]
  · rintro cs rfl
    rfl
  · rintro hnone cs rfl v hv
    simp only [verify_text, List.mem_map] at hv
    obtain ⟨c, -, hveq⟩ := hv
    subst hveq
    have hall : ∀ r' ∈ candidateResults o runLayer c, r'.score = none := by
      intro r' hr'
      simp only [candidateResults, List.mem_map] at hr'
      obtain ⟨L, -, hLeq⟩ := hr'
      subst hLeq
      unfold resultFor
      split_ifs
      · exact hnone c L
      · rfl
    exact (mkVerdict_label_of_no_scores hall).1

/-- Witness for C5: a request whose extraction raises terminates `failed`;
one whose extraction succeeds terminates `complete` even though every layer
is down, and its verdict is `unverifiable`. -/
theorem pipeline_failed_only_on_extraction_witness :
    runPipeline defaultConfig ⟨true, true, .plain⟩ (.error "no parse")
      demoRunLayer = .failed "no parse" ∧
    runPipeline defaultConfig ⟨true, true, .plain⟩ (.ok [demoCandidate])
      demoRunLayer =
      .complete (verify_text defaultConfig ⟨true, true, .plain⟩
        [demoCandidate] demoRunLayer) ∧
    ∀ v ∈ (verify_text defaultConfig ⟨true, true, .plain⟩ [demoCandidate]
        demoRunLayer).verdicts, v.label = .unverifiable :=
  ⟨((pipeline_failed_only_on_extraction defaultConfig ⟨true, true, .plain⟩
      (.error "no parse") demoRunLayer).1 "no parse").mpr rfl,
   (pipeline_failed_only_on_extraction defaultConfig ⟨true, true, .plain⟩
      (.ok [demoCandidate]) demoRunLayer).2.2.1 [demoCandidate] rfl,
   (pipeline_failed_only_on_extraction defaultConfig ⟨true, true, .plain⟩
      (.ok [demoCandidate]) demoRunLayer).2.2.2 (fun _ _ => rfl)
      [demoCandidate] rfl⟩

/-- C6: disabling a layer via its options flag forces that layer's
LayerResult to status `unavailable` for every candidate of the run — the
slot is still present (the verdict's results carry exactly one result per
layer in canonical order) and its status is never `passed` or `failed`. -/
theorem disabled_layer_unavailable (cfg : AggregationConfig)
    (o : VerifyOptions) (cands : List CitationCandidate)
    (runLayer : CitationCandidate → LayerName → LayerResult)
    (htag : ∀ c L, (runLayer c L).layer = L) (L : LayerName)
    (hdis : layerEnabled o L = false) :
    ∀ v ∈ (verify_text cfg o cands runLayer).verdicts,
      (v.results.map fun r' => r'.layer) = canonicalOrder ∧
      (∃ r' ∈ v.results, r'.layer = L) ∧
      ∀ r' ∈ v.results, r'.layer = L →
        r'.status = .unavailable ∧ r'.status ≠ .passed ∧
        r'.status ≠ .failed := by
  intro v hv
  simp only [verify_text, List.mem_map] at hv
  obtain ⟨c, -, hveq⟩ := hv
  have hlayer : ∀ (L' : LayerName), (resultFor o runLayer c L').layer = L' := by
    intro L'
    unfold resultFor
    split_ifs
    · exact htag c L'
    · rfl
  have hres : v.results = candidateResults o runLayer c := by
    subst hveq
    cases hagg : aggregate cfg (candidateResults o runLayer c) with
    | none => rw [mkVerdict_of_agg_none hagg]
    | some m => rw [mkVerdict_of_agg_some hagg]
  refine ⟨?_, ?_, ?_⟩
  · rw [hres]
    simp [candidateResults, canonicalOrder, hlayer]
  · refine ⟨resultFor o runLayer c L, ?_, hlayer L⟩
    rw [hres]
    simp only [candidateResults, List.mem_map]
    exact ⟨L, by cases L <;> simp [canonicalOrder], rfl⟩
  · intro r' hr' hrL
    rw [hres] at hr'
    simp only [candidateResults, List.mem_map] at hr'
    obtain ⟨L', -, hLeq⟩ := hr'
    have hLL : L' = L := by rw [← hrL, ← hLeq, hlayer]
    subst hLL
    rw [← hLeq]
    simp [resultFor, hdis, disabledResult]

/-- Witness for C6: with `enable_ai_scoring := false`, the one verdict of a
one-candidate run still carries the ai layer's result slot, and its status
is `unavailable`. -/
theorem disabled_layer_unavailable_witness :
    ((mkVerdict defaultConfig demoCandidate.id
        (candidateResults ⟨false, true, .plain⟩ demoRunLayer
          demoCandidate)).results.map fun r' => r'.layer) = canonicalOrder ∧
    (∃ r' ∈ (mkVerdict defaultConfig demoCandidate.id
        (candidateResults ⟨false, true, .plain⟩ demoRunLayer
          demoCandidate)).results, r'.layer = .ai) ∧
    ∀ r' ∈ (mkVerdict defaultConfig demoCandidate.id
        (candidateResults ⟨false, true, .plain⟩ demoRunLayer
          demoCandidate)).results,
      r'.layer = .ai → r'.status = .unavailable ∧ r'.status ≠ .passed ∧
        r'.status ≠ .failed :=
  disabled_layer_unavailable defaultConfig ⟨false, true, .plain⟩
    [demoCandidate] demoRunLayer (fun _ _ => rfl) .ai rfl
    (mkVerdict defaultConfig demoCandidate.id
      (candidateResults ⟨false, true, .plain⟩ demoRunLayer demoCandidate))
    (by simp [verify_text])

/-- C9 counterexample: under the valid default deployment configuration, a
url layer `failed` whose present score is 0 — with metadata, content and ai
all `unavailable` — yields the verdict label `suspicious`, not
`unverifiable`: the §4.6 weighted-mean policy makes the verdict exactly the
label of the lone present score, so a low enough failed-url score does reach
the low extreme. -/
theorem failed_url_alone_yields_suspicious :
    ValidConfig defaultConfig ∧
    (mkVerdict defaultConfig 0 failedUrlOnlyResults).label = .suspicious ∧
    ¬(mkVerdict defaultConfig 0 failedUrlOnlyResults).label = .unverifiable := by
  have hagg : aggregate defaultConfig failedUrlOnlyResults = some 0 := by
    norm_num [aggregate, weightedEntries, failedUrlOnlyResults, defaultConfig,
      AggregationConfig.weight, List.filterMap_cons]
  have hlab : (mkVerdict defaultConfig 0 failedUrlOnlyResults).label =
      labelOf defaultConfig 0 := by
    rw [mkVerdict_of_agg_some hagg]
  have hsus : labelOf defaultConfig 0 = .suspicious := by
    norm_num [labelOf, defaultConfig, Rat.divInt_eq_div]
  refine ⟨by decide, ?_, ?_⟩
  · rw [hlab, hsus]
  · rw [hlab, hsus]
    simp

/-- C9 (amended): with the url layer `failed` carrying a present score and
metadata, content and ai all `unavailable`, the verdict label is
`unverifiable` — not `suspicious` — provided the url layer's score lies
strictly between the low and high thresholds; the aggregate then equals that
lone score. -/
theorem failed_url_alone_between_thresholds (cfg : AggregationConfig)
    (s : ℚ) (e1 e2 e3 e4 : String) (hv : ValidConfig cfg)
    (hlo : cfg.low < s) (hhi : s < cfg.high) :
    aggregate cfg
      [⟨.url, .failed, some s, e1⟩, ⟨.metadata, .unavailable, none, e2⟩,
       ⟨.content, .unavailable, none, e3⟩, ⟨.ai, .unavailable, none, e4⟩] =
      some s ∧
    (mkVerdict cfg 0
      [⟨.url, .failed, some s, e1⟩, ⟨.metadata, .unavailable, none, e2⟩,
       ⟨.content, .unavailable, none, e3⟩,
       ⟨.ai, .unavailable, none, e4⟩]).label = .unverifiable := by
  have hwu : cfg.wUrl ≠ 0 := ne_of_gt hv.1
  have hwe : weightedEntries cfg
      [⟨.url, .failed, some s, e1⟩, ⟨.metadata, .unavailable, none, e2⟩,
       ⟨.content, .unavailable, none, e3⟩, ⟨.ai, .unavailable, none, e4⟩] =
      [(cfg.wUrl, s)] := by
    simp [weightedEntries, List.filterMap_cons, AggregationConfig.weight]
  have hagg : aggregate cfg
      [⟨.url, .failed, some s, e1⟩, ⟨.metadata, .unavailable, none, e2⟩,
       ⟨.content, .unavailable, none, e3⟩, ⟨.ai, .unavailable, none, e4⟩] =
      some s := by
    simp only [aggregate, hwe]
    rw [if_neg (by simp)]
    simp only [List.map_cons, List.map_nil, List.sum_cons, List.sum_nil,
      add_zero]
    rw [mul_div_cancel_left₀ s hwu]
  refine ⟨hagg, ?_⟩
  rw [mkVerdict_of_agg_some hagg]
  show labelOf cfg s = .unverifiable
  unfold labelOf
  rw [if_neg (by linarith), if_neg (by linarith)]

/-- Witness for the amended C9 at the concrete score 1/2 under the default
configuration. -/
theorem failed_url_alone_between_thresholds_witness :
    aggregate defaultConfig
      [⟨.url, .failed, some (Rat.divInt 1 2), "connection refused"⟩,
       ⟨.metadata, .unavailable, none, "no DOI"⟩,
       ⟨.content, .unavailable, none, "content not fetchable"⟩,
       ⟨.ai, .unavailable, none, "both judge backends down"⟩] =
      some (Rat.divInt 1 2) ∧
    (mkVerdict defaultConfig 0
      [⟨.url, .failed, some (Rat.divInt 1 2), "connection refused"⟩,
       ⟨.metadata, .unavailable, none, "no DOI"⟩,
       ⟨.content, .unavailable, none, "content not fetchable"⟩,
       ⟨.ai, .unavailable, none, "both judge backends down"⟩]).label =
      .unverifiable :=
  failed_url_alone_between_thresholds defaultConfig (Rat.divInt 1 2)
    "connection refused" "no DOI" "content not fetchable"
    "both judge backends down" (by decide) (by decide) (by decide)

/-- C10: in the shipped backend only the url and ai layer runners perform a
real check; the metadata-lookup and content-alignment runners are
unimplemented placeholders — their output does not depend on the citation
and is never a genuine `passed`/`failed` verification result. -/
theorem placeholder_layers_no_real_check :
    layerImplemented .url = true ∧ layerImplemented .ai = true ∧
    layerImplemented .metadata = false ∧ layerImplemented .content = false ∧
    (∀ c c', verify_metadata c = verify_metadata c' ∧
      verify_content c = verify_content c') ∧
    (∀ c, (verify_metadata c).status ≠ .passed ∧
      (verify_metadata c).status ≠ .failed ∧
      (verify_content c).status ≠ .passed ∧
      (verify_content c).status ≠ .failed) := by
  refine ⟨rfl, rfl, rfl, rfl, fun c c' => ⟨rfl, rfl⟩, fun c => ?_⟩
  refine ⟨?_, ?_, ?_, ?_⟩ <;> simp [verify_metadata, verify_content]

end Hallux
